/-
Verification of the job-market-analyzer specification against a shallow
embedding of the repository's Python sources.

Embedding conventions:
* Python floats (salaries, distances, scores) are modelled as rationals.
* datetimes are modelled as natural-number timestamps; the ISO round-trip
  performed by the code is the identity on them.
* SQLite tables are modelled as lists of rows; INSERT OR IGNORE, LIKE
  (ASCII case-insensitive substring), ORDER BY, LIMIT and SUM/NULL
  semantics are modelled explicitly.
* The md5 hex digest and the uuid4 token used by id generation are passed
  in as parameters (the code treats them as black boxes).
* Python round is round-half-to-even, modelled exactly on rationals.
-/
import Mathlib

/-! ### String utilities: Python str.lower and the `in` substring test -/

/-- ASCII lower-casing of one character, as Python str.lower acts on ASCII. -/
def charLower (c : Char) : Char :=
  if 'A' ≤ c ∧ c ≤ 'Z' then Char.ofNat (c.toNat + 32) else c

/-- Python str.lower (modelled on ASCII letters). -/
def strLower (s : String) : String := ⟨s.data.map charLower⟩

/-- Does the second list occur at the head of the first? -/
def listStarts : List Char → List Char → Bool
  | [], _ => true
  | _ :: _, [] => false
  | a :: as, b :: bs => a == b && listStarts as bs

/-- Does needle occur as a contiguous sublist of the haystack? -/
def listSub (nee : List Char) : List Char → Bool
  | [] => listStarts nee []
  | b :: bs => listStarts nee (b :: bs) || listSub nee bs

/-- Python `nee in hay` on strings. -/
def strContains (hay nee : String) : Bool := listSub nee.data hay.data

/-- Case-insensitive substring test, as SQLite LIKE with % wildcards on
ASCII text. -/
def strContainsCI (hay nee : String) : Bool :=
  strContains (strLower hay) (strLower nee)

/-! ### Python round: round-half-to-even on rationals -/

/-- Round-half-to-even to the nearest integer, as Python's builtin round. -/
def rhe (x : ℚ) : ℤ :=
  if x - ⌊x⌋ < 1/2 then ⌊x⌋
  else if 1/2 < x - ⌊x⌋ then ⌊x⌋ + 1
  else if ⌊x⌋ % 2 = 0 then ⌊x⌋ else ⌊x⌋ + 1

/-- Python round(x, nd) for nonnegative nd. -/
def pyRound (nd : Nat) (x : ℚ) : ℚ := (rhe (x * 10 ^ nd) : ℚ) / 10 ^ nd

/-! ### Data model: src/data_collection/models.py, class JobPosting -/

/-- One job posting (dataclass JobPosting).  The id field is set by
__post_init__ from an md5 digest of title+company+location+uuid4. -/
structure JobPosting where
  title : String
  company : String
  location : String
  description : String
  salary_min : Option ℚ := none
  salary_max : Option ℚ := none
  salary_currency : String := "USD"
  job_type : String := "Full-time"
  experience_level : String := "Mid"
  remote : Bool := false
  skills : List String := []
  source : String := "unknown"
  url : Option String := none
  posted_date : Option Nat := none
  scraped_at : Nat := 0
  id : String := ""
deriving DecidableEq, Repr

/-- Id generation from __post_init__: md5 hex digest of
title+company+location+uuid4, truncated to 16 characters.  The md5 hex
function and the fresh uuid token are parameters of the embedding. -/
def genId (md5hex : String → String) (title company location uuid : String) : String :=
  (md5hex (title ++ company ++ location ++ uuid)).take 16

/-! ### Analytics role classifier: src/analytics/analyzer.py, get_base_role -/

/-- The nested keyword ladder inside JobAnalyzer.get_salary_by_role
(local function get_base_role). -/
def get_base_role (title : String) : String :=
  let t := strLower title
  if strContains t "data engineer" then "Data Engineer"
  else if strContains t "machine learning" || strContains t "ml engineer" then "ML Engineer"
  else if strContains t "ai engineer" then "AI Engineer"
  else if strContains t "data scientist" then "Data Scientist"
  else if strContains t "backend" then "Backend Engineer"
  else if strContains t "full stack" || strContains t "fullstack" then "Full Stack Engineer"
  else if strContains t "devops" || strContains t "sre" then "DevOps Engineer"
  else if strContains t "analytics" then "Analytics Engineer"
  else "Other"

/-- The priority-ordered rule table the specification describes: keywords
per canonical role, first matching rule wins, default Other. -/
def roleRules : List (List String × String) :=
  [ (["data engineer"], "Data Engineer")
  , (["machine learning", "ml engineer"], "ML Engineer")
  , (["ai engineer"], "AI Engineer")
  , (["data scientist"], "Data Scientist")
  , (["backend"], "Backend Engineer")
  , (["full stack", "fullstack"], "Full Stack Engineer")
  , (["devops", "sre"], "DevOps Engineer")
  , (["analytics"], "Analytics Engineer") ]

/-- First-matching-rule classifier over a rule table (formalisation of the
specification's description of the classifier). -/
def firstMatch : List (List String × String) → String → String
  | [], _ => "Other"
  | (kws, role) :: rest, t =>
      if kws.any (fun k => strContains (strLower t) k) then role
      else firstMatch rest t

/-! ### Relational store: src/etl/database.py, class JobDatabase -/

/-- The two SQLite tables: jobs (keyed by id) and the auxiliary
job_skills association table of (job_id, skill) rows. -/
structure JobDatabase where
  jobs : List JobPosting
  job_skills : List (String × String)
deriving DecidableEq, Repr

/-- The INSERT OR IGNORE statement plus the conditional skill-row writes
of insert_job: the main row is inserted only if the id is not already
present, and one (job_id, lowercased skill) row is written per skill only
when the main insert actually occurred (cursor.rowcount > 0). -/
def insert_or_ignore (db : JobDatabase) (job : JobPosting) : Bool × JobDatabase :=
  if db.jobs.any (fun r => r.id == job.id) then (false, db)
  else
    (true,
      { jobs := db.jobs ++ [job]
        job_skills := db.job_skills ++ job.skills.map (fun s => (job.id, strLower s)) })

/-- JobDatabase.insert_job.  The fail flag models whether the storage
layer raises sqlite3.Error during this call; the except-handler converts
any such error into the return value False with the transaction rolled
back (the connection is closed without commit).  The total return type
Bool shows that no exception propagates to the caller. -/
def insert_job (fail : Bool) (db : JobDatabase) (job : JobPosting) : Bool × JobDatabase :=
  match (if fail then Except.error "sqlite3.Error"
         else Except.ok (insert_or_ignore db job) : Except String (Bool × JobDatabase)) with
  | Except.ok r => r
  | Except.error _ => (false, db)

/-- The skill rows currently stored for one job id. -/
def skillRowsFor (db : JobDatabase) (jobId : String) : List (String × String) :=
  db.job_skills.filter (fun p => p.1 == jobId)

/-! ### Dict round-trip and row conversion: models.py to_dict / from_dict,
database.py _row_to_job -/

/-- The dictionary form produced by JobPosting.to_dict (datetimes as their
ISO serialisations, modelled by the timestamps themselves). -/
structure JobDict where
  title : String
  company : String
  location : String
  description : String
  salary_min : Option ℚ
  salary_max : Option ℚ
  salary_currency : String
  job_type : String
  experience_level : String
  remote : Bool
  skills : List String
  source : String
  url : Option String
  posted_date : Option Nat
  scraped_at : Nat
  id : String
deriving DecidableEq, Repr

/-- JobPosting.to_dict. -/
def to_dict (j : JobPosting) : JobDict :=
  { title := j.title, company := j.company, location := j.location,
    description := j.description, salary_min := j.salary_min,
    salary_max := j.salary_max, salary_currency := j.salary_currency,
    job_type := j.job_type, experience_level := j.experience_level,
    remote := j.remote, skills := j.skills, source := j.source,
    url := j.url, posted_date := j.posted_date, scraped_at := j.scraped_at,
    id := j.id }

/-- JobPosting.from_dict: parses the dates back, pops the supplied id, and
lets __post_init__ assign a fresh id from the md5 digest of
title+company+location and the fresh uuid4 token of this construction. -/
def from_dict (md5hex : String → String) (uuid : String) (d : JobDict) : JobPosting :=
  { title := d.title, company := d.company, location := d.location,
    description := d.description, salary_min := d.salary_min,
    salary_max := d.salary_max, salary_currency := d.salary_currency,
    job_type := d.job_type, experience_level := d.experience_level,
    remote := d.remote, skills := d.skills, source := d.source,
    url := d.url, posted_date := d.posted_date, scraped_at := d.scraped_at,
    id := genId md5hex d.title d.company d.location uuid }

/-- JobDatabase._row_to_job: the row's stored id is popped and a fresh id
is generated by the JobPosting constructor. -/
def row_to_job (md5hex : String → String) (uuid : String) (r : JobPosting) : JobPosting :=
  { r with id := genId md5hex r.title r.company r.location uuid }

/-! ### JobDatabase.search_jobs -/

/-- Python truthiness for an optional string argument: None and the empty
string are falsy, so the corresponding WHERE condition is not added. -/
def optTruthyS : Option String → Option String
  | some s => if s = "" then none else some s
  | none => none

/-- Python truthiness for an optional numeric argument: None and 0 are
falsy. -/
def optTruthyQ : Option ℚ → Option ℚ
  | some v => if v = 0 then none else some v
  | none => none

/-- The conjunction of the dynamically built WHERE conditions of
search_jobs (everything except the skills post-filter).  LIKE with %
wildcards is the ASCII case-insensitive substring test; experience_level
uses exact (case-sensitive) equality; remote = 1 tests the boolean;
salary_min >= x is false on a NULL salary_min. -/
def rowMatches (query company location experience_level : Option String)
    (remote_only : Bool) (min_salary : Option ℚ) (r : JobPosting) : Bool :=
  (match optTruthyS query with
   | some q => strContainsCI r.title q || strContainsCI r.description q ||
               strContainsCI r.company q
   | none => true) &&
  (match optTruthyS company with
   | some c => strContainsCI r.company c
   | none => true) &&
  (match optTruthyS location with
   | some l => strContainsCI r.location l
   | none => true) &&
  (match optTruthyS experience_level with
   | some e => r.experience_level == e
   | none => true) &&
  (!remote_only || r.remote) &&
  (match optTruthyQ min_salary with
   | some m => match r.salary_min with
               | some v => decide (m ≤ v)
               | none => false
   | none => true)

/-- Maps _row_to_job over the fetched rows; fresh i is the uuid4 token of
the i-th conversion of the call. -/
def mapRows (md5hex : String → String) (fresh : Nat → String) :
    Nat → List JobPosting → List JobPosting
  | _, [] => []
  | i, r :: rs => row_to_job md5hex (fresh i) r :: mapRows md5hex fresh (i + 1) rs

/-- The skills post-filter at the end of search_jobs: when a (truthy)
skills list is supplied, keep the jobs having at least one of the
requested skills, case-insensitively. -/
def skillsPost (skills : Option (List String)) (jobs : List JobPosting) :
    List JobPosting :=
  match skills with
  | none => jobs
  | some sl =>
    if sl.isEmpty then jobs
    else jobs.filter (fun j => sl.any (fun s => (j.skills.map strLower).contains (strLower s)))

/-- JobDatabase.search_jobs: dynamic WHERE conditions, ORDER BY scraped_at
DESC, LIMIT, row conversion, then the skills post-filter (a record matches
if it has at least one of the requested skills, case-insensitively). -/
def search_jobs (md5hex : String → String) (fresh : Nat → String) (db : JobDatabase)
    (query company location : Option String) (skills : Option (List String))
    (experience_level : Option String) (remote_only : Bool)
    (min_salary : Option ℚ) (limit : Nat) : List JobPosting :=
  let rows := db.jobs.filter
    (rowMatches query company location experience_level remote_only min_salary)
  let rows := (List.insertionSort (fun a b => b.scraped_at ≤ a.scraped_at) rows).take limit
  skillsPost skills (mapRows md5hex fresh 0 rows)

/-- JobDatabase.get_all_jobs. -/
def get_all_jobs (md5hex : String → String) (fresh : Nat → String)
    (db : JobDatabase) (limit : Nat) : List JobPosting :=
  search_jobs md5hex fresh db none none none none none false none limit

/-! ### JobDatabase.get_stats (the remote-distribution part) and
JobAnalyzer.get_remote_stats -/

/-- The remote_distribution entry of get_stats.  It runs
SELECT SUM(CASE WHEN remote = 1 THEN 1 ELSE 0 END),
       SUM(CASE WHEN remote = 0 THEN 1 ELSE 0 END) FROM jobs:
SQLite SUM over zero input rows is NULL, so on an empty jobs table both
entries are NULL (None); on a nonempty table they are the remote and
on-site row counts. -/
def remote_distribution (db : JobDatabase) : Option Nat × Option Nat :=
  if db.jobs.isEmpty then (none, none)
  else (some (db.jobs.countP (fun j => j.remote)),
        some (db.jobs.countP (fun j => !j.remote)))

/-- The result record of JobAnalyzer.get_remote_stats. -/
structure RemoteStats where
  remote_count : Nat
  onsite_count : Nat
  remote_percentage : ℚ
  onsite_percentage : ℚ
deriving DecidableEq, Repr

/-- JobAnalyzer.get_remote_stats: reads remote_distribution from
get_stats, then computes total = remote + onsite.  When both dictionary
values are None (empty table) the Python addition None + None raises a
TypeError, modelled as the error branch; otherwise the percentages are
computed with the zero-total guard. -/
def get_remote_stats (db : JobDatabase) : Except String RemoteStats :=
  match remote_distribution db with
  | (some remote, some onsite) =>
    let total := remote + onsite
    Except.ok
      { remote_count := remote
        onsite_count := onsite
        remote_percentage :=
          if 0 < total then pyRound 1 ((remote : ℚ) / (total : ℚ) * 100) else 0
        onsite_percentage :=
          if 0 < total then pyRound 1 ((onsite : ℚ) / (total : ℚ) * 100) else 0 }
  | _ => Except.error "TypeError: unsupported operand type(s) for +: NoneType and NoneType"

/-! ### Vector store: src/rag/vector_store.py, class JobVectorStore -/

/-- The flat metadata bag attached to each indexed document (booleans as
the strings True/False, missing salaries as 0, first ten skills joined by
a comma). -/
structure VSMetadata where
  company : String
  location : String
  experience_level : String
  remote : String
  salary_min : ℚ
  salary_max : ℚ
  skills : String
  source : String
deriving DecidableEq, Repr

/-- The metadata dict built by add_job / add_jobs. -/
def job_to_metadata (j : JobPosting) : VSMetadata :=
  { company := j.company, location := j.location,
    experience_level := j.experience_level,
    remote := if j.remote then "True" else "False",
    salary_min := j.salary_min.getD 0, salary_max := j.salary_max.getD 0,
    skills := String.intercalate ", " (j.skills.take 10),
    source := j.source }

/-- JobVectorStore._job_to_document: a composite multi-line text; the
salary line is inserted at position 4 only when both bounds are truthy. -/
def job_to_document (j : JobPosting) : String :=
  let parts :=
    [ "Job Title: " ++ j.title
    , "Company: " ++ j.company
    , "Location: " ++ j.location
    , "Experience Level: " ++ j.experience_level
    , "Remote: " ++ (if j.remote then "Yes" else "No")
    , "Skills: " ++ String.intercalate ", " j.skills
    , "Description: " ++ j.description ]
  let parts :=
    match j.salary_min, j.salary_max with
    | some a, some b =>
      if a ≠ 0 ∧ b ≠ 0 then
        parts.insertIdx 4 ("Salary: $" ++ toString a.num ++ " - $" ++ toString b.num)
      else parts
    | _, _ => parts
  String.intercalate "\n" parts

/-- One entry of the ChromaDB collection: id, document text, metadata. -/
structure VSEntry where
  id : String
  document : String
  metadata : VSMetadata
deriving DecidableEq, Repr

/-- Splits the jobs list into consecutive batches of size bs (the python
range(0, total, batch_size) loop; bs is at least 1 in any real call). -/
def toChunks (bs : Nat) : List JobPosting → List (List JobPosting)
  | [] => []
  | x :: xs => (x :: xs.take (bs - 1)) :: toChunks bs (xs.drop (bs - 1))
termination_by l => l.length
decreasing_by
  simp only [List.length_cons]
  exact Nat.lt_succ_of_le (by simp)

/-- The per-batch loop body of add_jobs: walks the batch, skipping each
job whose id is already indexed (existing) or was seen earlier in this
call (seen); returns the jobs to add in order, the updated seen set, and
how many were skipped. -/
def processBatch (existing seen : List String) :
    List JobPosting → List JobPosting × List String × Nat
  | [] => ([], seen, 0)
  | j :: js =>
    if existing.contains j.id || seen.contains j.id then
      let (t, s, k) := processBatch existing seen js
      (t, s, k + 1)
    else
      let (t, s, k) := processBatch existing (seen ++ [j.id]) js
      (j :: t, s, k)

/-- The batch loop of add_jobs: the collection.add call happens only when
the batch contributed at least one document. -/
def addJobsLoop (existing : List String) :
    List (List JobPosting) → List String → List VSEntry → Nat → Nat →
    Nat × Nat × List VSEntry
  | [], _, st, a, s => (a, s, st)
  | b :: bs, seen, st, a, s =>
    let (toAdd, seen2, k) := processBatch existing seen b
    let st2 := if toAdd.isEmpty then st
               else st ++ toAdd.map (fun j => ⟨j.id, job_to_document j, job_to_metadata j⟩)
    addJobsLoop existing bs seen2 st2 (a + toAdd.length) (s + k)

/-- JobVectorStore.add_jobs: fetches the set of already-indexed ids once,
then processes the list in batches, returning (added, skipped) and the
updated collection. -/
def add_jobs (st : List VSEntry) (jobs : List JobPosting) (batch_size : Nat) :
    Nat × Nat × List VSEntry :=
  addJobsLoop (st.map (fun e => e.id)) (toChunks batch_size jobs) [] st 0 0

/-! #### JobVectorStore.search -/

/-- The ChromaDB where-filter expression built by search: a single
equality condition, or a conjunction of equality conditions wrapped in
an and-operator. -/
inductive WhereCond where
  | single : String × String → WhereCond
  | andAll : List (String × String) → WhereCond
deriving DecidableEq, Repr

/-- Builds the where-filter from the supplied (truthy) search filters:
exact experience_level equality and remote = "True". -/
def buildWhere (experience_level : Option String) (remote_only : Bool) :
    Option WhereCond :=
  let filters :=
    (match optTruthyS experience_level with
     | some e => [("experience_level", e)]
     | none => []) ++
    (if remote_only then [("remote", "True")] else [])
  match filters with
  | [] => none
  | [f] => some (WhereCond.single f)
  | fs => some (WhereCond.andAll fs)

/-- One candidate returned by the underlying collection.query call. -/
structure VSCandidate where
  id : String
  document : String
  metadata : VSMetadata
  distance : ℚ
deriving DecidableEq, Repr

/-- One search result dict: document, metadata, similarity score, id. -/
structure VSResult where
  document : String
  metadata : VSMetadata
  similarity_score : ℚ
  id : String
deriving DecidableEq, Repr

/-- The result dict built for one candidate: its similarity score is
max(0, 1 - distance) rounded to three decimals. -/
def resultOf (c : VSCandidate) : VSResult :=
  { document := c.document, metadata := c.metadata,
    similarity_score := pyRound 3 (max 0 (1 - c.distance)),
    id := c.id }

/-- The salary post-filter condition of search: a candidate is dropped
when a truthy min_salary is supplied and its metadata salary_min (where a
missing salary was stored as 0) is below it. -/
def skipCond (min_salary : Option ℚ) (c : VSCandidate) : Bool :=
  match min_salary with
  | some m => decide (m ≠ 0) && decide (c.metadata.salary_min < m)
  | none => false

/-- The result-processing loop of search: drop the candidates the salary
post-filter rejects, emit the result dict for the rest. -/
def processResults (min_salary : Option ℚ) : List VSCandidate → List VSResult
  | [] => []
  | c :: cs =>
    let rest := processResults min_salary cs
    if skipCond min_salary c then rest else resultOf c :: rest

/-- JobVectorStore.search: builds the where-filter, over-fetches
n_results * 2 candidates from the underlying index (query_fn models
collection.query, taking the requested candidate count and the filter),
post-filters by salary, converts distances to similarity scores, and
truncates to n_results. -/
def vs_search (query_fn : Nat → Option WhereCond → List VSCandidate)
    (n_results : Nat) (experience_level : Option String) (remote_only : Bool)
    (min_salary : Option ℚ) : List VSResult :=
  let w := buildWhere experience_level remote_only
  let results := query_fn (n_results * 2) w
  (processResults min_salary results).take n_results

/-! ### JobAnalyzer.get_skill_salary_correlation

get_jobs_dataframe builds a pandas DataFrame from the records.  In a
salary column that mixes numbers with missing values, pandas coerces the
column to float64 and each missing value becomes NaN — which is TRUTHY in
Python and propagates through arithmetic without raising; only when a
column holds no number at all do the missing values stay None (falsy, and
raising TypeError when added).  The embedding models a float cell as an
optional PyFloat: none is Python None, PyFloat.nan is NaN. -/

/-- A pandas float cell value: an actual number or NaN. -/
inductive PyFloat where
  | num : ℚ → PyFloat
  | nan : PyFloat
deriving DecidableEq, Repr

/-- The pandas per-column conversion of one cell: a present number stays
itself; a missing value becomes NaN when the column holds any number
(float64 column), else stays None (object column). -/
def colPyFloat (anyPresent : Bool) : Option ℚ → Option PyFloat
  | some q => some (PyFloat.num q)
  | none => if anyPresent then some PyFloat.nan else none

/-- Python truthiness of a float cell: None is falsy, NaN is truthy, a
number is truthy iff nonzero. -/
def pyTruthyF : Option PyFloat → Bool
  | none => false
  | some PyFloat.nan => true
  | some (PyFloat.num q) => decide (q ≠ 0)

/-- Python float addition: NaN propagates. -/
def pfAdd : PyFloat → PyFloat → PyFloat
  | PyFloat.num a, PyFloat.num b => PyFloat.num (a + b)
  | _, _ => PyFloat.nan

/-- Python float halving: NaN propagates. -/
def pfDiv2 : PyFloat → PyFloat
  | PyFloat.num a => PyFloat.num (a / 2)
  | PyFloat.nan => PyFloat.nan

/-- Python sum(values): a left fold of + starting from 0. -/
def pfSum (l : List PyFloat) : PyFloat := l.foldl pfAdd (PyFloat.num 0)

/-- Python float / int division (the divisor is a positive list length
at every use site): NaN propagates. -/
def pfDivNat : PyFloat → Nat → PyFloat
  | PyFloat.num a, n => PyFloat.num (a / (n : ℚ))
  | PyFloat.nan, _ => PyFloat.nan

/-- Python round(x, 0): NaN rounds to NaN. -/
def pfRound0 : PyFloat → PyFloat
  | PyFloat.num a => PyFloat.num (pyRound 0 a)
  | PyFloat.nan => PyFloat.nan

/-- Python < on floats: any comparison against NaN is False. -/
def pfLt : PyFloat → PyFloat → Bool
  | PyFloat.num a, PyFloat.num b => decide (a < b)
  | _, _ => false

/-- The row guard of get_skill_salary_correlation, with Python
truthiness on the DataFrame cell: if row.salary_max and row.skills —
so a NaN ceiling (missing value in a float64 column) passes the guard,
a None ceiling (all-missing column) and a zero ceiling do not, and the
skills list must be nonempty. -/
def rowContributes (anyMax : Bool) (j : JobPosting) : Bool :=
  pyTruthyF (colPyFloat anyMax j.salary_max) && !j.skills.isEmpty

/-- The claim's reading of the row guard: a salary ceiling present
(regardless of value) and at least one skill. -/
def claimContributes (j : JobPosting) : Bool :=
  j.salary_max.isSome && !j.skills.isEmpty

/-- The amended claim's notion of a contributing record: salary ceiling
present and nonzero, at least one skill.  On a dataframe where every
skilled record carries both salary bounds this coincides with the
program's guard rowContributes (no NaN can arise there) — the amended
theorem establishes exactly that. -/
def salariedContributor (j : JobPosting) : Bool :=
  (match j.salary_max with
   | some v => decide (v ≠ 0)
   | none => false) && !j.skills.isEmpty

/-- The record's mean salary (salary_min + salary_max) / 2 as the
amended claim accumulates it (both bounds present there, so the getD
defaults never apply). -/
def pyAvg (j : JobPosting) : ℚ :=
  (j.salary_min.getD 0 + j.salary_max.getD 0) / 2

/-- skill_salaries[skill].append(value): dict update, appending under the
first entry with the key, or adding a new key at the end. -/
def addToSkill {α : Type} : List (String × List α) → String → α → List (String × List α)
  | [], s, v => [(s, [v])]
  | (k, vs) :: m, s, v =>
    if k == s then (k, vs ++ [v]) :: m else (k, vs) :: addToSkill m s v

/-- One iteration of the row loop: a row passing the truthiness guard
appends (row.salary_min + row.salary_max) / 2 under each of its skills —
a NaN bound makes that value NaN (no exception), while a None
salary_min (possible only when no record carries a salary floor, the
column then being an object column) raises a TypeError. -/
def accumRow (anyMin anyMax : Bool) (m : List (String × List PyFloat))
    (j : JobPosting) : Except String (List (String × List PyFloat)) :=
  if rowContributes anyMax j then
    match colPyFloat anyMin j.salary_min, colPyFloat anyMax j.salary_max with
    | some a, some b =>
        Except.ok (j.skills.foldl (fun acc s => addToSkill acc s (pfDiv2 (pfAdd a b))) m)
    | _, _ =>
        Except.error "TypeError: unsupported operand type(s) for +: NoneType and float"
  else Except.ok m

/-- The row loop of get_skill_salary_correlation over the dataframe. -/
def accumAll (anyMin anyMax : Bool) :
    List JobPosting → List (String × List PyFloat) →
    Except String (List (String × List PyFloat))
  | [], m => Except.ok m
  | j :: js, m =>
    match accumRow anyMin anyMax m j with
    | Except.ok m2 => accumAll anyMin anyMax js m2
    | Except.error e => Except.error e

/-- get_skill_salary_correlation over the dataframe rows: compute the
column dtypes (is any value present per salary column), accumulate, keep
skills with at least 5 entries, average and round, sort descending by
value, truncate to 15.  The sort models Python sorted(reverse=True),
stable descending under the < of pfLt; it coincides with CPython
whenever the keys are totally ordered — i.e. whenever no NaN mean
reaches the sort, which the amended theorem's hypothesis guarantees. -/
def skill_salary_of (df : List JobPosting) : Except String (List (String × PyFloat)) :=
  let anyMin := df.any (fun j => j.salary_min.isSome)
  let anyMax := df.any (fun j => j.salary_max.isSome)
  match accumAll anyMin anyMax df [] with
  | Except.ok m =>
    let avg := (m.filter (fun p => 5 ≤ p.2.length)).map
      (fun p => (p.1, pfRound0 (pfDivNat (pfSum p.2) p.2.length)))
    Except.ok ((List.insertionSort (fun a b => pfLt a.2 b.2 = false) avg).take 15)
  | Except.error e => Except.error e

/-- JobAnalyzer.get_jobs_dataframe: all jobs, limit 10000. -/
def get_jobs_dataframe (md5hex : String → String) (fresh : Nat → String)
    (db : JobDatabase) : List JobPosting :=
  get_all_jobs md5hex fresh db 10000

/-- JobAnalyzer.get_skill_salary_correlation. -/
def get_skill_salary_correlation (md5hex : String → String)
    (fresh : Nat → String) (db : JobDatabase) :
    Except String (List (String × PyFloat)) :=
  skill_salary_of (get_jobs_dataframe md5hex fresh db)

/-- The multiset (in row order) of mean salaries the amended claim
accumulates under one skill: one entry per occurrence of the skill in a
record with a nonzero salary ceiling; on the dataframes the amended
theorem admits, this is exactly what the code accumulates. -/
def contribs : List JobPosting → String → List ℚ
  | [], _ => []
  | j :: js, s =>
    (if salariedContributor j then
       (j.skills.filter (fun k => k == s)).map (fun _ => pyAvg j)
     else []) ++ contribs js s

/-- First-match lookup in the accumulator (dict access). -/
def lookupVals {α : Type} (m : List (String × List α)) (s : String) : List α :=
  match m.find? (fun p => p.1 == s) with
  | some p => p.2
  | none => []

/-! ### Concrete witness data -/

/-- A candidate with a high salary, used by the C3 witness. -/
def wCand3 : VSCandidate :=
  { id := "v3", document := "doc3",
    metadata := { company := "Acme", location := "Remote",
                  experience_level := "Senior", remote := "True",
                  salary_min := 150000, salary_max := 200000,
                  skills := "python", source := "sample" },
    distance := 0 }

/-- The underlying-index query stub used by the C3 witness. -/
def wQf3 : Nat → Option WhereCond → List VSCandidate := fun _ _ => [wCand3]

/-- A candidate whose distance exceeds 1, used by the C7 witness. -/
def wCand7 : VSCandidate :=
  { id := "v7", document := "doc7",
    metadata := { company := "Acme", location := "NYC",
                  experience_level := "Mid", remote := "False",
                  salary_min := 0, salary_max := 0,
                  skills := "", source := "sample" },
    distance := 3/2 }

/-- The underlying-index query stub used by the C7 witness. -/
def wQf7 : Nat → Option WhereCond → List VSCandidate := fun _ _ => [wCand7]


/-- Counterexample record for C5: salary ceiling present but zero, one
skill. -/
def c5Job : JobPosting :=
  { title := "T", company := "C", location := "L", description := "D",
    salary_min := some 100, salary_max := some 0, skills := ["python"],
    id := "c5" }

/-- Five counterexample records in a database. -/
def c5Db : JobDatabase := ⟨[c5Job, c5Job, c5Job, c5Job, c5Job], []⟩

/-- Witness record for the amended C5: full salary range, one skill. -/
def wC5Job : JobPosting :=
  { title := "T", company := "C", location := "L", description := "D",
    salary_min := some 100000, salary_max := some 200000,
    skills := ["python"], id := "w5" }

/-- Five witness records in a database. -/
def wC5Db : JobDatabase := ⟨[wC5Job, wC5Job, wC5Job, wC5Job, wC5Job], []⟩

/-- A fixed stand-in for the md5 hex digest used by witnesses. -/
def wMd5 : String → String := fun _ => "0123456789abcdef"

/-- A fixed stand-in for the uuid4 supply used by witnesses. -/
def wFresh : Nat → String := fun _ => "u"

/-- A concrete record matching company Acme, remote, with skill Python. -/
def wJob2 : JobPosting :=
  { title := "Engineer", company := "Acme Corp", location := "NYC",
    description := "d", remote := true, skills := ["Python"], id := "x" }

/-- A concrete one-row database used by the search witness. -/
def wDb2 : JobDatabase := ⟨[wJob2], []⟩

/-- A concrete record used by witnesses. -/
def wJob : JobPosting :=
  { title := "Data Engineer", company := "Acme", location := "Remote",
    description := "etl", skills := ["Python", "SQL"], id := "j1" }

/-- A concrete record with id "a" used by witnesses. -/
def w9Job : JobPosting :=
  { title := "t", company := "c", location := "l", description := "d", id := "a" }

/-- A concrete one-row database used by witnesses. -/
def w9Db : JobDatabase := ⟨[w9Job], []⟩

/-- Claim C6: the title classifier of salaryByRole applies its keyword
rules in the fixed priority order Data Engineer, ML Engineer, AI Engineer,
Data Scientist, Backend Engineer, Full Stack Engineer, DevOps Engineer,
Analytics Engineer, else Other, with the first matching rule winning; in
particular the title "Senior ML Engineer / Data Engineer" classifies
deterministically as "Data Engineer". -/
theorem c6_role_priority :
    (∀ t, get_base_role t = firstMatch roleRules t) ∧
    get_base_role "Senior ML Engineer / Data Engineer" = "Data Engineer" := by
  constructor
  · intro t
    simp [get_base_role, firstMatch, roleRules]
  · decide


/-- Claim C1: inserting the same JobPosting twice returns inserted=False
the second time, leaves the jobs-table row count unchanged, and the
(job_id, skill) auxiliary rows are written exactly once per record — only
when the main row insert actually occurred, never on the no-op duplicate
insert. -/
theorem c1_idempotent_insert (db : JobDatabase) (job : JobPosting)
    (hfresh : db.jobs.any (fun r => r.id == job.id) = false)
    (hsk : skillRowsFor db job.id = []) :
    (insert_job false db job).1 = true ∧
    (insert_job false (insert_job false db job).2 job).1 = false ∧
    (insert_job false (insert_job false db job).2 job).2 = (insert_job false db job).2 ∧
    (insert_job false db job).2.jobs.length = db.jobs.length + 1 ∧
    (insert_job false (insert_job false db job).2 job).2.jobs.length
      = (insert_job false db job).2.jobs.length ∧
    skillRowsFor (insert_job false (insert_job false db job).2 job).2 job.id
      = job.skills.map (fun s => (job.id, strLower s)) := by
  have h1 : insert_job false db job =
      (true, ⟨db.jobs ++ [job],
              db.job_skills ++ job.skills.map (fun s => (job.id, strLower s))⟩) := by
    simp [insert_job, insert_or_ignore, hfresh]
  have h2 : insert_job false (insert_job false db job).2 job
      = (false, (insert_job false db job).2) := by
    rw [h1]
    simp [insert_job, insert_or_ignore, List.any_append]
  rw [h2, h1]
  refine ⟨rfl, rfl, rfl, by simp, rfl, ?_⟩
  simp only [skillRowsFor] at hsk ⊢
  rw [List.filter_append, hsk, List.nil_append, List.filter_eq_self]
  intro p hp
  rcases List.mem_map.mp hp with ⟨s, _, rfl⟩
  simp

/-- Witness for C1 on a concrete database and record. -/
theorem c1_idempotent_insert_witness :
    (insert_job false ⟨[], []⟩ wJob).1 = true ∧
    (insert_job false (insert_job false ⟨[], []⟩ wJob).2 wJob).1 = false ∧
    (insert_job false (insert_job false ⟨[], []⟩ wJob).2 wJob).2
      = (insert_job false ⟨[], []⟩ wJob).2 ∧
    (insert_job false ⟨[], []⟩ wJob).2.jobs.length
      = (⟨[], []⟩ : JobDatabase).jobs.length + 1 ∧
    (insert_job false (insert_job false ⟨[], []⟩ wJob).2 wJob).2.jobs.length
      = (insert_job false ⟨[], []⟩ wJob).2.jobs.length ∧
    skillRowsFor (insert_job false (insert_job false ⟨[], []⟩ wJob).2 wJob).2 wJob.id
      = wJob.skills.map (fun s => (wJob.id, strLower s)) :=
  c1_idempotent_insert ⟨[], []⟩ wJob (by decide) (by decide)

/-- Claim C9: a storage-layer error during insert is caught and reported
as not-inserted (False) rather than propagated — insert_job is a total
function into Bool, and its return value on a write failure coincides
with its return value on a duplicate id, so the boolean alone cannot
distinguish the two. -/
theorem c9_error_swallowed (db db2 : JobDatabase) (job job2 : JobPosting)
    (hdup : db2.jobs.any (fun r => r.id == job2.id) = true) :
    insert_job true db job = (false, db) ∧
    (insert_job false db2 job2).1 = false ∧
    (insert_job true db job).1 = (insert_job false db2 job2).1 := by
  refine ⟨rfl, ?_, ?_⟩ <;>
    simp [insert_job, insert_or_ignore, hdup]

/-- Witness for C9: a failing write and a duplicate insert both report
False. -/
theorem c9_error_swallowed_witness :
    insert_job true ⟨[], []⟩ w9Job = (false, ⟨[], []⟩) ∧
    (insert_job false w9Db w9Job).1 = false ∧
    (insert_job true ⟨[], []⟩ w9Job).1 = (insert_job false w9Db w9Job).1 :=
  c9_error_swallowed ⟨[], []⟩ w9Db w9Job w9Job (by decide)

/-! ### Helper lemmas about mapRows and search_jobs -/

theorem mapRows_length (md5hex : String → String) (fresh : Nat → String) :
    ∀ (i : Nat) (l : List JobPosting), (mapRows md5hex fresh i l).length = l.length := by
  intro i l
  induction l generalizing i with
  | nil => rfl
  | cons r rs ih => simp [mapRows, ih]

theorem mem_mapRows {md5hex : String → String} {fresh : Nat → String}
    {j : JobPosting} :
    ∀ {i : Nat} {l : List JobPosting}, j ∈ mapRows md5hex fresh i l →
      ∃ r ∈ l, ∃ u, j = row_to_job md5hex u r := by
  intro i l
  induction l generalizing i with
  | nil => intro h; cases h
  | cons r rs ih =>
    intro h
    simp only [mapRows] at h
    rcases List.mem_cons.mp h with rfl | h
    · exact ⟨r, List.mem_cons_self r rs, fresh i, rfl⟩
    · obtain ⟨r', hr', u, hu⟩ := ih h
      exact ⟨r', List.mem_cons_of_mem _ hr', u, hu⟩

theorem mem_skillsPost {skills : Option (List String)} {jobs : List JobPosting}
    {j : JobPosting} (h : j ∈ skillsPost skills jobs) : j ∈ jobs := by
  cases skills with
  | none => exact h
  | some sl =>
    by_cases hsl : sl.isEmpty
    · simpa [skillsPost, hsl] using h
    · simp only [skillsPost, hsl, if_false] at h
      exact List.mem_of_mem_filter h

theorem skillsPost_length_le (skills : Option (List String))
    (jobs : List JobPosting) : (skillsPost skills jobs).length ≤ jobs.length := by
  cases skills with
  | none => exact le_refl _
  | some sl =>
    by_cases hsl : sl.isEmpty
    · simp [skillsPost, hsl]
    · simp only [skillsPost, hsl, if_false]
      exact List.length_filter_le _ _

theorem mem_search_jobs_core {md5hex : String → String} {fresh : Nat → String}
    {db : JobDatabase} {query company location : Option String}
    {skills : Option (List String)} {experience_level : Option String}
    {remote_only : Bool} {min_salary : Option ℚ} {limit : Nat} {j : JobPosting}
    (h : j ∈ search_jobs md5hex fresh db query company location skills
          experience_level remote_only min_salary limit) :
    ∃ r ∈ db.jobs,
      rowMatches query company location experience_level remote_only min_salary r = true ∧
      ∃ u, j = row_to_job md5hex u r := by
  simp only [search_jobs] at h
  have hj := mem_skillsPost h
  obtain ⟨r, hr, u, hu⟩ := mem_mapRows hj
  have hr2 := List.take_subset _ _ hr
  rw [List.mem_insertionSort] at hr2
  rw [List.mem_filter] at hr2
  exact ⟨r, hr2.1, hr2.2, u, hu⟩

theorem search_jobs_skills_post {md5hex : String → String} {fresh : Nat → String}
    {db : JobDatabase} {query company location : Option String}
    {sl : List String} {experience_level : Option String}
    {remote_only : Bool} {min_salary : Option ℚ} {limit : Nat} {j : JobPosting}
    (h : j ∈ search_jobs md5hex fresh db query company location (some sl)
          experience_level remote_only min_salary limit)
    (hsl : ¬ sl.isEmpty = true) :
    sl.any (fun s => (j.skills.map strLower).contains (strLower s)) = true := by
  simp only [search_jobs, skillsPost, hsl, if_false] at h
  exact (List.mem_filter.mp h).2

/-- Claim C2: search filters are conjunctive — every returned record
satisfies all supplied (truthy) filters, e.g. company substring match
case-insensitive AND remote true — at most limit records are returned,
and the limit is applied before the skills post-filter, so when a skills
filter is supplied every returned record has at least one of the
requested skills (case-insensitively) and the returned count may fall
below limit. -/
theorem c2_search_conjunctive (md5hex : String → String) (fresh : Nat → String)
    (db : JobDatabase) (query company location : Option String)
    (skills : Option (List String)) (experience_level : Option String)
    (remote_only : Bool) (min_salary : Option ℚ) (limit : Nat) :
    (search_jobs md5hex fresh db query company location skills
        experience_level remote_only min_salary limit).length ≤ limit ∧
    ∀ j ∈ search_jobs md5hex fresh db query company location skills
        experience_level remote_only min_salary limit,
      (∀ c, company = some c → c ≠ "" → strContainsCI j.company c = true) ∧
      (remote_only = true → j.remote = true) ∧
      (∀ q, query = some q → q ≠ "" →
        (strContainsCI j.title q || strContainsCI j.description q ||
         strContainsCI j.company q) = true) ∧
      (∀ lo, location = some lo → lo ≠ "" → strContainsCI j.location lo = true) ∧
      (∀ e, experience_level = some e → e ≠ "" → j.experience_level = e) ∧
      (∀ m, min_salary = some m → m ≠ 0 → ∃ v, j.salary_min = some v ∧ m ≤ v) ∧
      (∀ sl, skills = some sl → sl ≠ [] →
        ∃ s ∈ sl, strLower s ∈ j.skills.map strLower) := by
  constructor
  · simp only [search_jobs]
    refine le_trans (skillsPost_length_le _ _) ?_
    rw [mapRows_length]
    exact List.length_take_le _ _
  · intro j hj
    obtain ⟨r, _, hmatch, u, rfl⟩ := mem_search_jobs_core hj
    simp only [rowMatches, Bool.and_eq_true] at hmatch
    obtain ⟨⟨⟨⟨⟨hq, hc⟩, hl⟩, he⟩, hro⟩, hm⟩ := hmatch
    refine ⟨?_, ?_, ?_, ?_, ?_, ?_, ?_⟩
    · intro c hcc hne
      subst hcc
      simpa [optTruthyS, hne, row_to_job] using hc
    · intro hrt
      subst hrt
      simpa [row_to_job] using hro
    · intro q hqq hne
      subst hqq
      simpa [optTruthyS, hne, row_to_job] using hq
    · intro lo hll hne
      subst hll
      simpa [optTruthyS, hne, row_to_job] using hl
    · intro e hee hne
      subst hee
      simp only [optTruthyS, hne, if_neg, if_false] at he
      simp only [row_to_job]
      exact eq_of_beq (by simpa using he)
    · intro m hmm hne
      subst hmm
      simp only [optTruthyQ, hne, if_neg, if_false] at hm
      rcases hs : r.salary_min with _ | v
      · rw [hs] at hm
        simp at hm
      · rw [hs] at hm
        simp only [decide_eq_true_eq] at hm
        exact ⟨v, by simpa [row_to_job] using hs, hm⟩
    · intro sl hss hne
      subst hss
      have hpost := search_jobs_skills_post hj (by simpa using hne)
      rcases List.any_eq_true.mp hpost with ⟨s, hsmem, hs⟩
      refine ⟨s, hsmem, ?_⟩
      exact List.mem_of_elem_eq_true hs

set_option maxHeartbeats 2000000 in
/-- Witness for C2: a concrete search with a company filter, remote_only
and a skills filter, whose returned record satisfies all filters. -/
theorem c2_search_conjunctive_witness :
    (search_jobs wMd5 wFresh wDb2 none (some "Acme") none (some ["python"])
        none true none 5).length ≤ 5 ∧
    strContainsCI (row_to_job wMd5 "u" wJob2).company "Acme" = true ∧
    (row_to_job wMd5 "u" wJob2).remote = true ∧
    ∃ s ∈ ["python"], strLower s ∈ (row_to_job wMd5 "u" wJob2).skills.map strLower := by
  have h := c2_search_conjunctive wMd5 wFresh wDb2 none (some "Acme") none
    (some ["python"]) none true none 5
  have hmem : row_to_job wMd5 "u" wJob2 ∈ search_jobs wMd5 wFresh wDb2 none
      (some "Acme") none (some ["python"]) none true none 5 := by decide
  have h3 := h.2 _ hmem
  exact ⟨h.1, h3.1 "Acme" rfl (by decide), h3.2.1 rfl,
    h3.2.2.2.2.2.2 ["python"] rfl (by decide)⟩

/-- Claim C10: from_dict (and the row-to-record conversion _row_to_job)
discards any supplied id and assigns a freshly generated id derived from
the record text plus the random uuid4 token of the construction; the
to_dict/from_dict round-trip preserves every field except id (the result
is the original record with only its id replaced by the fresh one), and
the result is invariant under changing the id stored in the dictionary,
so a record read back from the store does not carry the id under which it
was persisted. -/
theorem c10_roundtrip_fresh_id (md5hex : String → String) (uuid : String)
    (j : JobPosting) (x : String) :
    from_dict md5hex uuid (to_dict j)
      = { j with id := genId md5hex j.title j.company j.location uuid } ∧
    from_dict md5hex uuid { to_dict j with id := x }
      = from_dict md5hex uuid (to_dict j) ∧
    row_to_job md5hex uuid j
      = { j with id := genId md5hex j.title j.company j.location uuid } :=
  ⟨rfl, rfl, rfl⟩

/-- Claim C4 (code bug): the claim says that with zero records
remoteStats() returns remote_percentage = 0 without raising; the code
instead raises a TypeError, because SQLite SUM over zero rows yields NULL
for both remote and on_site, and the analyzer then evaluates None + None
before its zero-total guard can apply.  This theorem evaluates the model
at the failing input (the empty store). -/
theorem c4_zero_records_type_error :
    get_remote_stats ⟨[], []⟩
      = Except.error "TypeError: unsupported operand type(s) for +: NoneType and NoneType" :=
  rfl

/-! ### Rounding bounds and processResults lemmas -/

theorem rhe_nonneg {x : ℚ} (hx : 0 ≤ x) : 0 ≤ rhe x := by
  have hf : (0 : ℤ) ≤ ⌊x⌋ := Int.floor_nonneg.mpr hx
  unfold rhe
  split_ifs <;> omega

theorem rhe_le_intCast {x : ℚ} {N : ℤ} (h : x ≤ (N : ℚ)) : rhe x ≤ N := by
  have hfl : ⌊x⌋ ≤ N := by
    have := Int.floor_le_floor h
    simpa using this
  unfold rhe
  split_ifs with h1 h2 h3
  · exact hfl
  · have hx : (⌊x⌋ : ℚ) < x := by linarith [not_lt.mp (by exact_mod_cast h1)]
    have : (⌊x⌋ : ℚ) < (N : ℚ) := lt_of_lt_of_le hx h
    have : ⌊x⌋ < N := by exact_mod_cast this
    omega
  · exact hfl
  · have hx : (⌊x⌋ : ℚ) < x := by linarith [not_lt.mp (by exact_mod_cast h1)]
    have : (⌊x⌋ : ℚ) < (N : ℚ) := lt_of_lt_of_le hx h
    have : ⌊x⌋ < N := by exact_mod_cast this
    omega

theorem pyRound3_unit {x : ℚ} (h0 : 0 ≤ x) (h1 : x ≤ 1) :
    0 ≤ pyRound 3 x ∧ pyRound 3 x ≤ 1 := by
  have ha : (0 : ℚ) ≤ x * 10 ^ 3 := by positivity
  have hb : x * 10 ^ 3 ≤ ((1000 : ℤ) : ℚ) := by push_cast; nlinarith
  have h2 := rhe_nonneg ha
  have h3 := rhe_le_intCast hb
  unfold pyRound
  constructor
  · apply div_nonneg _ (by norm_num)
    exact_mod_cast h2
  · rw [div_le_one (by norm_num)]
    calc (rhe (x * 10 ^ 3) : ℚ) ≤ ((1000 : ℤ) : ℚ) := by exact_mod_cast h3
      _ = 10 ^ 3 := by norm_num

theorem mem_processResults_salary {m : ℚ} (hm : m ≠ 0) :
    ∀ {l : List VSCandidate} {r : VSResult}, r ∈ processResults (some m) l →
      m ≤ r.metadata.salary_min := by
  intro l
  induction l with
  | nil => intro r h; cases h
  | cons c cs ih =>
    intro r h
    simp only [processResults] at h
    by_cases hlt : c.metadata.salary_min < m
    · rw [if_pos (by simp [skipCond, hm, hlt])] at h
      exact ih h
    · rw [if_neg (by simp [skipCond, hlt])] at h
      rcases List.mem_cons.mp h with rfl | h
      · exact le_of_not_lt (by simpa [resultOf] using hlt)
      · exact ih h

theorem mem_processResults_shape {ms : Option ℚ} :
    ∀ {l : List VSCandidate} {r : VSResult}, r ∈ processResults ms l →
      ∃ c ∈ l, r = resultOf c := by
  intro l
  induction l with
  | nil => intro r h; cases h
  | cons c cs ih =>
    intro r h
    simp only [processResults] at h
    by_cases hskip : skipCond ms c = true
    · rw [if_pos hskip] at h
      obtain ⟨c', hc', hr⟩ := ih h
      exact ⟨c', List.mem_cons_of_mem _ hc', hr⟩
    · rw [if_neg hskip] at h
      rcases List.mem_cons.mp h with rfl | h
      · exact ⟨c, List.mem_cons_self _ _, rfl⟩
      · obtain ⟨c', hc', hr⟩ := ih h
        exact ⟨c', List.mem_cons_of_mem _ hc', hr⟩

/-- Claim C3: for every query and min_salary = 100000, search never
returns a result whose metadata salary_min is below 100000, even though
the floor is applied in the caller after over-fetching 2 times n
candidates from the underlying index; the final list is truncated to at
most n entries. -/
theorem c3_salary_floor (query_fn : Nat → Option WhereCond → List VSCandidate)
    (n : Nat) (experience_level : Option String) (remote_only : Bool) :
    (vs_search query_fn n experience_level remote_only (some 100000)).length ≤ n ∧
    ∀ r ∈ vs_search query_fn n experience_level remote_only (some 100000),
      (100000 : ℚ) ≤ r.metadata.salary_min := by
  constructor
  · simp only [vs_search]
    exact List.length_take_le _ _
  · intro r hr
    simp only [vs_search] at hr
    exact mem_processResults_salary (by norm_num) (List.take_subset _ _ hr)

/-- Witness for C3: a concrete search whose returned record clears the
salary floor, with at most one result requested. -/
theorem c3_salary_floor_witness :
    (vs_search wQf3 1 none false (some 100000)).length ≤ 1 ∧
    (100000 : ℚ) ≤ (resultOf wCand3).metadata.salary_min := by
  have h := c3_salary_floor wQf3 1 none false
  have hskip : skipCond (some 100000) wCand3 = false := by
    simp only [skipCond, Bool.and_eq_false_iff, decide_eq_false_iff_not, not_lt]
    right
    norm_num [wCand3]
  have heq : vs_search wQf3 1 none false (some 100000) = [resultOf wCand3] := by
    simp [vs_search, wQf3, processResults, hskip]
  have hmem : resultOf wCand3 ∈ vs_search wQf3 1 none false (some 100000) := by
    rw [heq]
    exact List.mem_singleton_self _
  exact ⟨h.1, h.2 _ hmem⟩

/-- Claim C7: every returned similarity score equals
max(0, 1 - distance) rounded to three decimals, for the raw distance of
the originating candidate, and (for the nonnegative distances an ANN
index returns) the score lies in [0, 1] even when the distance exceeds
1. -/
theorem c7_similarity_clamped (query_fn : Nat → Option WhereCond → List VSCandidate)
    (n : Nat) (experience_level : Option String) (remote_only : Bool)
    (min_salary : Option ℚ)
    (hd : ∀ c ∈ query_fn (n * 2) (buildWhere experience_level remote_only),
      0 ≤ c.distance) :
    ∀ r ∈ vs_search query_fn n experience_level remote_only min_salary,
      (∃ c ∈ query_fn (n * 2) (buildWhere experience_level remote_only),
        r.similarity_score = pyRound 3 (max 0 (1 - c.distance))) ∧
      0 ≤ r.similarity_score ∧ r.similarity_score ≤ 1 := by
  intro r hr
  simp only [vs_search] at hr
  obtain ⟨c, hc, rfl⟩ := mem_processResults_shape (List.take_subset _ _ hr)
  have hx0 : (0 : ℚ) ≤ max 0 (1 - c.distance) := le_max_left _ _
  have hx1 : max 0 (1 - c.distance) ≤ 1 :=
    max_le (by norm_num) (by linarith [hd c hc])
  have hb := pyRound3_unit hx0 hx1
  exact ⟨⟨c, hc, rfl⟩, by simpa [resultOf] using hb.1, by simpa [resultOf] using hb.2⟩

/-- Witness for C7: a candidate at distance 3/2 (exceeding 1) yields a
similarity score clamped into [0, 1]. -/
theorem c7_similarity_clamped_witness :
    (∃ c ∈ wQf7 (1 * 2) (buildWhere none false),
      (resultOf wCand7).similarity_score = pyRound 3 (max 0 (1 - c.distance))) ∧
    0 ≤ (resultOf wCand7).similarity_score ∧ (resultOf wCand7).similarity_score ≤ 1 := by
  have hd : ∀ c ∈ wQf7 (1 * 2) (buildWhere none false), 0 ≤ c.distance := by
    intro c hc
    have : c = wCand7 := by simpa [wQf7] using hc
    subst this
    norm_num [wCand7]
  have h := c7_similarity_clamped wQf7 1 none false none hd
  have heq : vs_search wQf7 1 none false none = [resultOf wCand7] := by
    simp [vs_search, wQf7, processResults, skipCond]
  have hmem : resultOf wCand7 ∈ vs_search wQf7 1 none false none := by
    rw [heq]
    exact List.mem_singleton_self _
  exact h _ hmem

/-! ### add_jobs loop lemmas (for the dual-store skip logic) -/

theorem toChunks_flatten (bs : Nat) (l : List JobPosting) :
    (toChunks bs l).flatten = l := by
  induction l using toChunks.induct bs with
  | case1 => simp [toChunks]
  | case2 x xs ih =>
    rw [toChunks]
    simp only [List.flatten_cons, ih]
    rw [List.cons_append, List.take_append_drop]

theorem processBatch_seen (ex : List String) :
    ∀ (b : List JobPosting) (seen : List String),
      (processBatch ex seen b).2.1
        = seen ++ ((processBatch ex seen b).1).map (fun j => j.id) := by
  intro b
  induction b with
  | nil => intro seen; simp [processBatch]
  | cons j js ih =>
    intro seen
    by_cases hc : (ex.contains j.id || seen.contains j.id) = true
    · rcases hpb : processBatch ex seen js with ⟨t, s, k⟩
      have h := ih seen
      rw [hpb] at h
      simp only [processBatch, if_pos hc, hpb]
      simpa using h
    · rcases hpb : processBatch ex (seen ++ [j.id]) js with ⟨t, s, k⟩
      have h := ih (seen ++ [j.id])
      rw [hpb] at h
      simp only [processBatch, if_neg hc, hpb]
      simpa [List.append_assoc] using h

theorem processBatch_covers (ex : List String) :
    ∀ (b : List JobPosting) (seen : List String) (j : JobPosting), j ∈ b →
      j.id ∈ ex ∨ j.id ∈ (processBatch ex seen b).2.1 := by
  intro b
  induction b with
  | nil => intro seen j h; cases h
  | cons jh js ih =>
    intro seen j hj
    by_cases hc : (ex.contains jh.id || seen.contains jh.id) = true
    · rcases hpb : processBatch ex seen js with ⟨t, s, k⟩
      have hseen : s = seen ++ t.map (fun j => j.id) := by
        have h := processBatch_seen ex js seen
        rw [hpb] at h
        exact h
      simp only [processBatch, if_pos hc, hpb]
      rcases List.mem_cons.mp hj with rfl | hj2
      · have hc2 : ex.contains j.id = true ∨ seen.contains j.id = true := by
          simpa using hc
        rcases hc2 with h1 | h2
        · exact Or.inl (List.mem_of_elem_eq_true h1)
        · refine Or.inr ?_
          rw [hseen]
          exact List.mem_append_left _ (List.mem_of_elem_eq_true h2)
      · have h := ih seen j hj2
        rw [hpb] at h
        exact h
    · rcases hpb : processBatch ex (seen ++ [jh.id]) js with ⟨t, s, k⟩
      have hseen : s = (seen ++ [jh.id]) ++ t.map (fun j => j.id) := by
        have h := processBatch_seen ex js (seen ++ [jh.id])
        rw [hpb] at h
        exact h
      simp only [processBatch, if_neg hc, hpb]
      rcases List.mem_cons.mp hj with rfl | hj2
      · refine Or.inr ?_
        rw [hseen]
        exact List.mem_append_left _ (List.mem_append_right _ (List.mem_singleton_self _))
      · have h := ih (seen ++ [jh.id]) j hj2
        rw [hpb] at h
        exact h

theorem processBatch_all_dup (ex : List String) :
    ∀ (b : List JobPosting) (seen : List String),
      (∀ j ∈ b, j.id ∈ ex) →
      processBatch ex seen b = ([], seen, b.length) := by
  intro b
  induction b with
  | nil => intro seen _; rfl
  | cons j js ih =>
    intro seen h
    have hcj : ex.contains j.id = true :=
      List.elem_eq_true_of_mem (h j (List.mem_cons_self _ _))
    have hc : (ex.contains j.id || seen.contains j.id) = true := by
      rw [hcj]; rfl
    have hrec := ih seen (fun x hx => h x (List.mem_cons_of_mem _ hx))
    simp only [processBatch, if_pos hc, hrec]
    rfl

theorem addJobsLoop_ids (ex : List String) :
    ∀ (chunks : List (List JobPosting)) (seen : List String) (st : List VSEntry)
      (a s : Nat),
      (∀ i ∈ seen, i ∈ st.map (fun e => e.id)) →
      (∀ i ∈ st.map (fun e => e.id),
         i ∈ (addJobsLoop ex chunks seen st a s).2.2.map (fun e => e.id)) ∧
      (∀ j : JobPosting, (∃ b ∈ chunks, j ∈ b) →
         j.id ∈ ex ∨ j.id ∈ (addJobsLoop ex chunks seen st a s).2.2.map (fun e => e.id)) := by
  intro chunks
  induction chunks with
  | nil =>
    intro seen st a s hseen
    refine ⟨fun i hi => hi, fun j hj => ?_⟩
    rcases hj with ⟨b, hb, _⟩
    cases hb
  | cons b bs ih =>
    intro seen st a s hseen
    rcases hpb : processBatch ex seen b with ⟨t, s2, k⟩
    have hs2 : s2 = seen ++ t.map (fun j => j.id) := by
      have h := processBatch_seen ex b seen
      rw [hpb] at h
      exact h
    have hst2 : ∀ st2 : List VSEntry,
        st2 = (if t.isEmpty then st
               else st ++ t.map (fun j => ⟨j.id, job_to_document j, job_to_metadata j⟩)) →
        (∀ i ∈ st.map (fun e => e.id), i ∈ st2.map (fun e => e.id)) ∧
        (∀ i ∈ s2, i ∈ st2.map (fun e => e.id)) := by
      intro st2 hdef
      by_cases ht : t.isEmpty
      · rw [if_pos ht] at hdef
        subst hdef
        have htl : t = [] := List.isEmpty_iff.mp ht
        refine ⟨fun i hi => hi, fun i hi => ?_⟩
        rw [hs2, htl] at hi
        simpa using hseen i (by simpa using hi)
      · rw [if_neg ht] at hdef
        subst hdef
        constructor
        · intro i hi
          rw [List.map_append]
          exact List.mem_append_left _ hi
        · intro i hi
          rw [hs2] at hi
          rw [List.map_append]
          rcases List.mem_append.mp hi with h1 | h1
          · exact List.mem_append_left _ (hseen i h1)
          · refine List.mem_append_right _ ?_
            simpa [List.map_map, Function.comp] using h1
    have hmain := hst2 _ rfl
    have hrec := ih s2
      (if t.isEmpty then st
       else st ++ t.map (fun j => ⟨j.id, job_to_document j, job_to_metadata j⟩))
      (a + t.length) (s + k) hmain.2
    constructor
    · intro i hi
      simp only [addJobsLoop, hpb]
      exact hrec.1 i (hmain.1 i hi)
    · intro j hj
      simp only [addJobsLoop, hpb]
      rcases hj with ⟨b2, hb2, hjb⟩
      rcases List.mem_cons.mp hb2 with rfl | hb3
      · have hcov := processBatch_covers ex b2 seen j hjb
        rw [hpb] at hcov
        rcases hcov with h1 | h1
        · exact Or.inl h1
        · exact Or.inr (hrec.1 _ (hmain.2 _ h1))
      · exact hrec.2 j ⟨b2, hb3, hjb⟩

theorem addJobsLoop_all_dup (ex : List String) :
    ∀ (chunks : List (List JobPosting)) (seen : List String) (st : List VSEntry)
      (a s : Nat),
      (∀ j : JobPosting, (∃ b ∈ chunks, j ∈ b) → j.id ∈ ex) →
      addJobsLoop ex chunks seen st a s
        = (a, s + (chunks.map List.length).sum, st) := by
  intro chunks
  induction chunks with
  | nil => intro seen st a s _; simp [addJobsLoop]
  | cons b bs ih =>
    intro seen st a s h
    have hb : ∀ j ∈ b, j.id ∈ ex :=
      fun j hj => h j ⟨b, List.mem_cons_self _ _, hj⟩
    have hpb := processBatch_all_dup ex b seen hb
    have hrec := ih seen st a (s + b.length) (fun j hj => by
      rcases hj with ⟨b2, hb2, hjb⟩
      exact h j ⟨b2, List.mem_cons_of_mem _ hb2, hjb⟩)
    simp only [addJobsLoop, hpb, List.isEmpty_nil, if_pos, List.length_nil,
      Nat.add_zero, hrec, List.map_cons, List.sum_cons, Prod.mk.injEq]
    exact ⟨trivial, by omega, trivial⟩

/-- Claim C8: calling add_jobs twice with the same record set adds 0 new
documents on the second call, reports every record of the list as skipped
(skipped = the full list length), and leaves the collection unchanged:
duplicates are detected against the ids indexed before the call plus the
ids seen earlier within the same call. -/
theorem c8_addmany_idempotent (st : List VSEntry) (jobs : List JobPosting)
    (bs : Nat) :
    add_jobs (add_jobs st jobs bs).2.2 jobs bs
      = (0, jobs.length, (add_jobs st jobs bs).2.2) := by
  have hcov : ∀ j ∈ jobs,
      j.id ∈ (add_jobs st jobs bs).2.2.map (fun e => e.id) := by
    intro j hj
    have hchunks : ∃ b ∈ toChunks bs jobs, j ∈ b := by
      rw [← List.mem_flatten, toChunks_flatten]
      exact hj
    have h := addJobsLoop_ids (st.map (fun e => e.id)) (toChunks bs jobs) [] st 0 0
      (by intro i hi; cases hi)
    rcases h.2 j hchunks with hex | hfin
    · exact h.1 _ hex
    · exact hfin
  have h2 := addJobsLoop_all_dup ((add_jobs st jobs bs).2.2.map (fun e => e.id))
    (toChunks bs jobs) [] (add_jobs st jobs bs).2.2 0 0
    (by
      intro j hj
      rcases hj with ⟨b, hb, hjb⟩
      refine hcov j ?_
      rw [← toChunks_flatten bs jobs]
      exact List.mem_flatten.mpr ⟨b, hb, hjb⟩)
  have hsum : ((toChunks bs jobs).map List.length).sum = jobs.length := by
    rw [← List.length_flatten, toChunks_flatten]
  show addJobsLoop _ _ _ _ _ _ = _
  rw [h2, hsum, Nat.zero_add]

/-! ### Accumulator lemmas for get_skill_salary_correlation -/

theorem lookupVals_cons {α : Type} (k : String) (vs : List α)
    (m : List (String × List α)) (s : String) :
    lookupVals ((k, vs) :: m) s = if k = s then vs else lookupVals m s := by
  by_cases h : k = s
  · simp only [lookupVals]
    rw [List.find?_cons_of_pos _ (by simp [h])]
    simp [h]
  · simp only [lookupVals]
    rw [List.find?_cons_of_neg _ (by simp [h])]
    simp [h, lookupVals]

theorem addToSkill_cons_pos {α : Type} {k s : String} (hk : k = s) (vs : List α)
    (m : List (String × List α)) (v : α) :
    addToSkill ((k, vs) :: m) s v = (k, vs ++ [v]) :: m := by
  simp only [addToSkill]
  rw [if_pos (by simpa using hk)]

theorem addToSkill_cons_neg {α : Type} {k s : String} (hk : ¬ k = s) (vs : List α)
    (m : List (String × List α)) (v : α) :
    addToSkill ((k, vs) :: m) s v = (k, vs) :: addToSkill m s v := by
  simp only [addToSkill]
  rw [if_neg (by simpa using hk)]

theorem lookupVals_addToSkill {α : Type} (m : List (String × List α)) (s : String)
    (v : α) (s2 : String) :
    lookupVals (addToSkill m s v) s2
      = if s2 = s then lookupVals m s2 ++ [v] else lookupVals m s2 := by
  induction m with
  | nil =>
    rw [show addToSkill [] s v = [(s, [v])] from rfl, lookupVals_cons]
    by_cases h : s2 = s
    · subst h
      simp [lookupVals]
    · rw [if_neg (fun hh => h hh.symm), if_neg h]
  | cons p m ih =>
    obtain ⟨k, vs⟩ := p
    by_cases hk : k = s
    · rw [addToSkill_cons_pos hk]
      subst hk
      simp only [lookupVals_cons]
      by_cases h2 : k = s2
      · subst h2
        simp
      · simp [h2, Ne.symm h2]
    · rw [addToSkill_cons_neg hk]
      simp only [lookupVals_cons, ih]
      by_cases h2 : s2 = s <;> by_cases h3 : k = s2
      · exact absurd (h3.trans h2) hk
      · simp [h2, h3, hk]
      · simp [h2, h3, hk]
      · simp [h2, h3, hk]

theorem keys_addToSkill {α : Type} (m : List (String × List α)) (s : String) (v : α) :
    (addToSkill m s v).map Prod.fst = m.map Prod.fst ∨
    (addToSkill m s v).map Prod.fst = m.map Prod.fst ++ [s] := by
  induction m with
  | nil => right; simp [addToSkill]
  | cons p m ih =>
    obtain ⟨k, vs⟩ := p
    by_cases hk : k = s
    · left
      rw [addToSkill_cons_pos hk]
      simp
    · rcases ih with h | h
      · left
        rw [addToSkill_cons_neg hk]
        simp [h]
      · right
        rw [addToSkill_cons_neg hk]
        simp [h]

theorem nodup_keys_addToSkill {α : Type} {m : List (String × List α)} {s : String}
    {v : α} (h : (m.map Prod.fst).Nodup) :
    ((addToSkill m s v).map Prod.fst).Nodup := by
  induction m with
  | nil => simp [addToSkill]
  | cons p m ih =>
    obtain ⟨k, vs⟩ := p
    simp only [List.map_cons, List.nodup_cons] at h
    by_cases hk : k = s
    · rw [addToSkill_cons_pos hk]
      simp only [List.map_cons, List.nodup_cons]
      exact h
    · rw [addToSkill_cons_neg hk]
      simp only [List.map_cons, List.nodup_cons]
      refine ⟨?_, ih h.2⟩
      intro hmem
      rcases keys_addToSkill m s v with he | he
      · rw [he] at hmem
        exact h.1 hmem
      · rw [he] at hmem
        rcases List.mem_append.mp hmem with h1 | h1
        · exact h.1 h1
        · exact hk (by simpa using h1)

theorem lookupVals_foldl {α : Type} (v : α) :
    ∀ (skills : List String) (m : List (String × List α)) (s : String),
      lookupVals (skills.foldl (fun acc k => addToSkill acc k v) m) s
        = lookupVals m s ++ (skills.filter (fun k => k == s)).map (fun _ => v) := by
  intro skills
  induction skills with
  | nil => intro m s; simp
  | cons k ks ih =>
    intro m s
    simp only [List.foldl_cons]
    rw [ih, lookupVals_addToSkill]
    by_cases h : s = k
    · subst h
      simp [List.filter_cons]
    · have hk : ¬ ((k == s) = true) := by
        simp only [beq_iff_eq]
        exact fun hh => h hh.symm
      simp [List.filter_cons, h, hk]

theorem nodup_keys_foldl {α : Type} (v : α) :
    ∀ (skills : List String) (m : List (String × List α)),
      (m.map Prod.fst).Nodup →
      ((skills.foldl (fun acc k => addToSkill acc k v) m).map Prod.fst).Nodup := by
  intro skills
  induction skills with
  | nil => intro m h; simpa using h
  | cons k ks ih =>
    intro m h
    exact ih _ (nodup_keys_addToSkill h)

theorem lookupVals_of_mem {α : Type} {m : List (String × List α)} {s : String}
    {vs : List α} (hnd : (m.map Prod.fst).Nodup) (hm : (s, vs) ∈ m) :
    lookupVals m s = vs := by
  induction m with
  | nil => cases hm
  | cons p m ih =>
    obtain ⟨k, vs2⟩ := p
    simp only [List.map_cons, List.nodup_cons] at hnd
    rcases List.mem_cons.mp hm with he | hm2
    · have h1 : k = s := (Prod.ext_iff.mp he).1.symm
      have h2 : vs2 = vs := (Prod.ext_iff.mp he).2.symm
      subst h1
      subst h2
      rw [lookupVals_cons, if_pos rfl]
    · have hk : ¬ k = s := by
        intro h
        subst h
        exact hnd.1 (List.mem_map.mpr ⟨(k, vs), hm2, rfl⟩)
      rw [lookupVals_cons, if_neg hk]
      exact ih hnd.2 hm2

theorem lookupVals_of_not_mem {α : Type} {m : List (String × List α)} {s : String}
    (h : s ∉ m.map Prod.fst) : lookupVals m s = [] := by
  induction m with
  | nil => rfl
  | cons p m ih =>
    obtain ⟨k, vs⟩ := p
    simp only [List.map_cons, List.mem_cons] at h
    push_neg at h
    rw [lookupVals_cons, if_neg (fun hh => h.1 hh.symm)]
    exact ih h.2

theorem accumAll_spec (anyMin anyMax : Bool) :
    ∀ (df : List JobPosting) (m : List (String × List PyFloat)),
      (∀ j ∈ df, j.skills.isEmpty = false →
        j.salary_min.isSome = true ∧ j.salary_max.isSome = true) →
      ∃ m2, accumAll anyMin anyMax df m = Except.ok m2 ∧
        (∀ s, lookupVals m2 s = lookupVals m s ++ (contribs df s).map PyFloat.num) ∧
        ((m.map Prod.fst).Nodup → (m2.map Prod.fst).Nodup) := by
  intro df
  induction df with
  | nil =>
    intro m _
    exact ⟨m, rfl, fun s => by simp [contribs], fun h => h⟩
  | cons j js ih =>
    intro m hfull
    obtain ⟨m2, hm2, hlook, hnod⟩ :=
      ih m (fun x hx => hfull x (List.mem_cons_of_mem _ hx))
    by_cases hsk : j.skills.isEmpty
    · have hrow : accumRow anyMin anyMax m j = Except.ok m := by
        rw [accumRow, if_neg]
        simp [rowContributes, hsk]
      have hcl : salariedContributor j = false := by
        simp [salariedContributor, hsk]
      refine ⟨m2, ?_, ?_, hnod⟩
      · rw [accumAll, hrow]
        exact hm2
      · intro s
        rw [hlook s, contribs, hcl]
        simp
    · obtain ⟨hmin, hmax⟩ := hfull j (List.mem_cons_self _ _) (by simpa using hsk)
      obtain ⟨a, ha⟩ := Option.isSome_iff_exists.mp hmin
      obtain ⟨b, hb⟩ := Option.isSome_iff_exists.mp hmax
      by_cases hz : b = 0
      · have hrow : accumRow anyMin anyMax m j = Except.ok m := by
          rw [accumRow, if_neg]
          simp [rowContributes, colPyFloat, hb, pyTruthyF, hz]
        have hcl : salariedContributor j = false := by
          simp [salariedContributor, hb, hz]
        refine ⟨m2, ?_, ?_, hnod⟩
        · rw [accumAll, hrow]
          exact hm2
        · intro s
          rw [hlook s, contribs, hcl]
          simp
      · have hguard : rowContributes anyMax j = true := by
          simp [rowContributes, colPyFloat, hb, pyTruthyF, hz, hsk]
        have hrow : accumRow anyMin anyMax m j
            = Except.ok (j.skills.foldl
                (fun acc s => addToSkill acc s (PyFloat.num ((a + b) / 2))) m) := by
          rw [accumRow, if_pos hguard, ha, hb]
          rfl
        obtain ⟨m2b, hm2b, hlookb, hnodb⟩ :=
          ih (j.skills.foldl
            (fun acc s => addToSkill acc s (PyFloat.num ((a + b) / 2))) m)
            (fun x hx => hfull x (List.mem_cons_of_mem _ hx))
        have hcl : salariedContributor j = true := by
          simp [salariedContributor, hb, hz, hsk]
        refine ⟨m2b, ?_, ?_, ?_⟩
        · rw [accumAll, hrow]
          exact hm2b
        · intro s
          rw [hlookb s, lookupVals_foldl, contribs, hcl]
          simp only [if_true, List.map_append, List.map_map, List.append_assoc]
          have hav : pyAvg j = (a + b) / 2 := by
            simp [pyAvg, ha, hb]
          simp [hav, Function.comp_def, List.map_const']
        · intro h
          exact hnodb (nodup_keys_foldl _ _ _ h)

theorem pfLt_total (x y : PyFloat) : pfLt x y = false ∨ pfLt y x = false := by
  cases x with
  | nan => left; rfl
  | num a =>
    cases y with
    | nan => left; rfl
    | num b =>
      by_cases h : a < b
      · right
        simp [pfLt, not_lt.mpr (le_of_lt h)]
      · left
        simp [pfLt, h]

theorem pairwise_orderedInsert_of {α : Type} (r : α → α → Prop) [DecidableRel r] :
    ∀ (l : List α) (a : α),
      (∀ x ∈ a :: l, ∀ y ∈ a :: l, r x y ∨ r y x) →
      (∀ x ∈ a :: l, ∀ y ∈ a :: l, ∀ z ∈ a :: l, r x y → r y z → r x z) →
      l.Pairwise r → (l.orderedInsert r a).Pairwise r := by
  intro l
  induction l with
  | nil =>
    intro a _ _ _
    simp
  | cons b l ih =>
    intro a htot htr hp
    obtain ⟨hbl, hpl⟩ := List.pairwise_cons.mp hp
    have hmem : ∀ w, w ∈ a :: l → w ∈ a :: b :: l := by
      intro w hw
      rcases List.mem_cons.mp hw with rfl | hwl
      · exact List.mem_cons_self _ _
      · exact List.mem_cons_of_mem _ (List.mem_cons_of_mem _ hwl)
    rw [List.orderedInsert]
    by_cases hr : r a b
    · rw [if_pos hr]
      refine List.pairwise_cons.mpr ⟨?_, hp⟩
      intro y hy
      rcases List.mem_cons.mp hy with rfl | hyl
      · exact hr
      · exact htr a (by simp) b (by simp) y (by simp [hyl]) hr (hbl y hyl)
    · rw [if_neg hr]
      refine List.pairwise_cons.mpr ⟨?_, ?_⟩
      · intro y hy
        rcases (List.mem_orderedInsert r).mp hy with rfl | hyl
        · rcases htot y (by simp) b (by simp) with h1 | h1
          · exact absurd h1 hr
          · exact h1
        · exact hbl y hyl
      · refine ih a ?_ ?_ hpl
        · intro x hx y hy
          exact htot x (hmem x hx) y (hmem y hy)
        · intro x hx y hy z hz
          exact htr x (hmem x hx) y (hmem y hy) z (hmem z hz)

theorem pairwise_insertionSort_of {α : Type} (r : α → α → Prop) [DecidableRel r] :
    ∀ (l : List α),
      (∀ x ∈ l, ∀ y ∈ l, r x y ∨ r y x) →
      (∀ x ∈ l, ∀ y ∈ l, ∀ z ∈ l, r x y → r y z → r x z) →
      (l.insertionSort r).Pairwise r := by
  intro l
  induction l with
  | nil =>
    intro _ _
    simp
  | cons a l ih =>
    intro htot htr
    rw [List.insertionSort]
    have hmem : ∀ w, w ∈ a :: l.insertionSort r → w ∈ a :: l := by
      intro w hw
      rcases List.mem_cons.mp hw with rfl | hwl
      · exact List.mem_cons_self _ _
      · exact List.mem_cons_of_mem _ ((List.mem_insertionSort r).mp hwl)
    refine pairwise_orderedInsert_of r _ a ?_ ?_ ?_
    · intro x hx y hy
      exact htot x (hmem x hx) y (hmem y hy)
    · intro x hx y hy z hz
      exact htr x (hmem x hx) y (hmem y hy) z (hmem z hz)
    · refine ih ?_ ?_
      · intro x hx y hy
        exact htot x (List.mem_cons_of_mem _ hx) y (List.mem_cons_of_mem _ hy)
      · intro x hx y hy z hz
        exact htr x (List.mem_cons_of_mem _ hx) y (List.mem_cons_of_mem _ hy)
          z (List.mem_cons_of_mem _ hz)

theorem pfSum_map_num (l : List ℚ) : pfSum (l.map PyFloat.num) = PyFloat.num l.sum := by
  have haux : ∀ (l : List ℚ) (q : ℚ),
      (l.map PyFloat.num).foldl pfAdd (PyFloat.num q) = PyFloat.num (q + l.sum) := by
    intro l
    induction l with
    | nil =>
      intro q
      simp
    | cons x xs ih =>
      intro q
      simp only [List.map_cons, List.foldl_cons, pfAdd, List.sum_cons, ih]
      ring_nf
  rw [pfSum, haux]
  simp

theorem skill_salary_of_spec (df : List JobPosting)
    (hfull : ∀ j ∈ df, j.skills.isEmpty = false →
      j.salary_min.isSome = true ∧ j.salary_max.isSome = true) :
    ∃ l, skill_salary_of df = Except.ok l ∧
      l.length ≤ 15 ∧
      l.Pairwise (fun a b => pfLt a.2 b.2 = false) ∧
      (∀ p ∈ l, 5 ≤ (contribs df p.1).length ∧
        p.2 = PyFloat.num (pyRound 0
          ((contribs df p.1).sum / ((contribs df p.1).length : ℚ)))) ∧
      (l.length < 15 → ∀ s, 5 ≤ (contribs df s).length → ∃ v, (s, v) ∈ l) := by
  obtain ⟨m2, hm2, hlook, hnod⟩ :=
    accumAll_spec (df.any (fun j => j.salary_min.isSome))
      (df.any (fun j => j.salary_max.isSome)) df [] hfull
  have hnod2 : (m2.map Prod.fst).Nodup := hnod (by simp)
  have hlook2 : ∀ s, lookupVals m2 s = (contribs df s).map PyFloat.num := by
    intro s
    rw [hlook s]
    simp [lookupVals]
  have hval : ∀ q : String × List PyFloat, q ∈ m2 →
      pfRound0 (pfDivNat (pfSum q.2) q.2.length)
        = PyFloat.num (pyRound 0
            ((contribs df q.1).sum / ((contribs df q.1).length : ℚ))) ∧
      q.2.length = (contribs df q.1).length := by
    intro q hq
    have hq2 : q.2 = (contribs df q.1).map PyFloat.num := by
      rw [← hlook2]
      exact (lookupVals_of_mem hnod2 hq).symm
    constructor
    · rw [hq2, pfSum_map_num, List.length_map]
      rfl
    · rw [hq2, List.length_map]
  have hnumAvg : ∀ p ∈ (m2.filter (fun p => 5 ≤ p.2.length)).map
        (fun p => (p.1, pfRound0 (pfDivNat (pfSum p.2) p.2.length))),
      ∃ x : ℚ, p.2 = PyFloat.num x := by
    intro p hp
    obtain ⟨q, hq, rfl⟩ := List.mem_map.mp hp
    exact ⟨_, (hval q (List.mem_filter.mp hq).1).1⟩
  refine ⟨(List.insertionSort (fun a b => pfLt a.2 b.2 = false)
      ((m2.filter (fun p => 5 ≤ p.2.length)).map
        (fun p => (p.1, pfRound0 (pfDivNat (pfSum p.2) p.2.length))))).take 15,
    ?_, ?_, ?_, ?_, ?_⟩
  · simp only [skill_salary_of]
    rw [hm2]
  · exact List.length_take_le _ _
  · refine List.Pairwise.sublist (List.take_sublist _ _) ?_
    refine pairwise_insertionSort_of _ _ ?_ ?_
    · intro x _ y _
      exact pfLt_total x.2 y.2
    · intro x hx y hy z hz hxy hyz
      obtain ⟨qx, hqx⟩ := hnumAvg x hx
      obtain ⟨qy, hqy⟩ := hnumAvg y hy
      obtain ⟨qz, hqz⟩ := hnumAvg z hz
      rw [hqx, hqy] at hxy
      rw [hqy, hqz] at hyz
      rw [hqx, hqz]
      simp only [pfLt, decide_eq_false_iff_not, not_lt] at hxy hyz ⊢
      linarith
  · intro p hp
    have hp2 : p ∈ (m2.filter (fun p => 5 ≤ p.2.length)).map
        (fun p => (p.1, pfRound0 (pfDivNat (pfSum p.2) p.2.length))) :=
      ((List.perm_insertionSort _ _).mem_iff).mp (List.take_subset _ _ hp)
    obtain ⟨q, hq, rfl⟩ := List.mem_map.mp hp2
    have hqf := List.mem_filter.mp hq
    have h := hval q hqf.1
    constructor
    · rw [← h.2]
      simpa using hqf.2
    · exact h.1
  · intro hlen s hs
    have hne : contribs df s ≠ [] := by
      intro h
      rw [h] at hs
      simp at hs
    have hkey : s ∈ m2.map Prod.fst := by
      by_contra hk
      have h0 := lookupVals_of_not_mem (α := PyFloat) hk
      rw [hlook2 s] at h0
      exact hne (List.map_eq_nil_iff.mp h0)
    obtain ⟨q, hq, hq1⟩ := List.mem_map.mp hkey
    have h := hval q hq
    have h5 : 5 ≤ q.2.length := by
      rw [h.2, hq1]
      exact hs
    have hin : (q.1, pfRound0 (pfDivNat (pfSum q.2) q.2.length))
        ∈ (m2.filter (fun p => 5 ≤ p.2.length)).map
          (fun p => (p.1, pfRound0 (pfDivNat (pfSum p.2) p.2.length))) :=
      List.mem_map.mpr ⟨q, List.mem_filter.mpr ⟨hq, by simpa using h5⟩, rfl⟩
    have hin2 : (q.1, pfRound0 (pfDivNat (pfSum q.2) q.2.length))
        ∈ List.insertionSort (fun a b => pfLt a.2 b.2 = false)
          ((m2.filter (fun p => 5 ≤ p.2.length)).map
            (fun p => (p.1, pfRound0 (pfDivNat (pfSum p.2) p.2.length)))) :=
      ((List.perm_insertionSort _ _).mem_iff).mpr hin
    have htake : (List.insertionSort (fun a b => pfLt a.2 b.2 = false)
        ((m2.filter (fun p => 5 ≤ p.2.length)).map
          (fun p => (p.1, pfRound0 (pfDivNat (pfSum p.2) p.2.length))))).take 15
        = List.insertionSort (fun a b => pfLt a.2 b.2 = false)
          ((m2.filter (fun p => 5 ≤ p.2.length)).map
            (fun p => (p.1, pfRound0 (pfDivNat (pfSum p.2) p.2.length)))) := by
      apply List.take_of_length_le
      rw [List.length_take] at hlen
      omega
    rw [htake, ← hq1]
    exact ⟨_, hin2⟩

/-- Counterexample to C5 as stated: five records whose salary ceiling is
present but zero (and which carry the skill python) are, per the claim,
contributing records — python has 5 of them, so it should be kept — yet
the code's truthiness test (if row.salary_max) excludes them all and the
returned correlation is empty. -/
theorem c5_skill_salary_counterexample :
    get_skill_salary_correlation wMd5 wFresh c5Db = Except.ok [] ∧
    5 ≤ ((get_jobs_dataframe wMd5 wFresh c5Db).filter
          (fun j => claimContributes j && j.skills.contains "python")).length ∧
    (0 : Nat) < 15 := by
  refine ⟨?_, ?_, by decide⟩
  · rfl
  · decide

/-- Claim C5 (amended): on a store whose dataframe gives every record
with at least one skill both salary bounds (so no missing value turns
into a truthy NaN or a None in the salary columns — outside this
restriction the code accumulates NaN means rather than implementing the
claim), the correlation accumulates, for exactly those records whose
salary ceiling is nonzero and that have at least one skill, the record's
mean salary (salary_min + salary_max) / 2 under each of the record's
skills; it keeps only skills with at least 5 contributing entries, and
returns at most 15 skills ordered descending by their rounded mean
accumulated salary (every returned skill has at least 5 contributing
entries and carries the rounded mean of exactly its accumulated values,
and when fewer than 15 skills are returned, every skill with at least 5
contributing entries appears). -/
theorem c5_skill_salary_amended (md5hex : String → String)
    (fresh : Nat → String) (db : JobDatabase)
    (hfull : ∀ j ∈ get_jobs_dataframe md5hex fresh db,
      j.skills.isEmpty = false →
      j.salary_min.isSome = true ∧ j.salary_max.isSome = true) :
    ∃ l, get_skill_salary_correlation md5hex fresh db = Except.ok l ∧
      l.length ≤ 15 ∧
      l.Pairwise (fun a b => pfLt a.2 b.2 = false) ∧
      (∀ p ∈ l, 5 ≤ (contribs (get_jobs_dataframe md5hex fresh db) p.1).length ∧
        p.2 = PyFloat.num (pyRound 0
          ((contribs (get_jobs_dataframe md5hex fresh db) p.1).sum /
            ((contribs (get_jobs_dataframe md5hex fresh db) p.1).length : ℚ)))) ∧
      (l.length < 15 → ∀ s,
        5 ≤ (contribs (get_jobs_dataframe md5hex fresh db) s).length →
        ∃ v, (s, v) ∈ l) :=
  skill_salary_of_spec (get_jobs_dataframe md5hex fresh db) hfull

/-- Witness for the amended C5 on five concrete fully-salaried records. -/
theorem c5_skill_salary_amended_witness :
    ∃ l, get_skill_salary_correlation wMd5 wFresh wC5Db = Except.ok l ∧
      l.length ≤ 15 ∧
      l.Pairwise (fun a b => pfLt a.2 b.2 = false) ∧
      (∀ p ∈ l, 5 ≤ (contribs (get_jobs_dataframe wMd5 wFresh wC5Db) p.1).length ∧
        p.2 = PyFloat.num (pyRound 0
          ((contribs (get_jobs_dataframe wMd5 wFresh wC5Db) p.1).sum /
            ((contribs (get_jobs_dataframe wMd5 wFresh wC5Db) p.1).length : ℚ)))) ∧
      ((List.length l) < 15 → ∀ s,
        5 ≤ (contribs (get_jobs_dataframe wMd5 wFresh wC5Db) s).length →
        ∃ v, (s, v) ∈ l) :=
  c5_skill_salary_amended wMd5 wFresh wC5Db (by decide)
